import Mathlib

/-
Shallow embedding of the moltbook-client core, translated from the
TypeScript source:

  * src/src/state/memory.ts   (StateManager: persistent agent state)
  * src/src/commentQueue.ts   (CommentQueue: rate-limited write queue)
  * src/unnamed/part_004      (TaskScheduler: jittered per-task timers)
  * src/src/agent.ts          (isSleepTime: sleep-window classification)

Conventions of the embedding:

  * Wall-clock instants (`Date.getTime()`) are modelled as `Int`
    milliseconds; calendar dates (`toISOString().split('T')[0]`) are
    opaque `String` parameters supplied by the caller, since the code
    only ever compares them for equality.
  * Methods that read the clock take the relevant instant or date
    string as an explicit argument.
  * JS `number` arithmetic on these quantities is exact (the values
    involved are far below 2^53), so `Int` and `Rat` model it faithfully;
    fractional results (`diffMinutes`, random intervals) use `Rat`.
  * File persistence (`save`) is an I/O effect that writes the
    in-memory state verbatim; it does not change any field modelled
    here.  (The TS `save` also refreshes the unmodelled `humanAge`
    field to a value depending only on the wall clock.)  Fields of the
    TS `AgentState` that no modelled operation reads or writes
    (`lastHeartbeat`, `lastFeedCheck`, `lastReplyCheck`,
    `lastPostAttempt`, `skillVersion`, `lastSkillCheck`,
    `recentCommentTargets`, `humanAge`) are omitted from the record.
  * Remote calls that can fail (`moltbook.createComment`) are modelled
    by a `Bool` success flag; the TS methods wrapping them in
    `try/catch` are total functions here, mirroring "does not throw".
-/

namespace Moltbook

/-! ## Persistent state store (src/src/state/memory.ts) -/

/-- Stats block of `AgentState` (memory.ts lines 44-49). -/
structure Stats where
  totalComments : Nat
  totalPosts : Nat
  totalUpvotes : Nat
  totalFollows : Nat
deriving DecidableEq

/-- Affinity record for one peer (memory.ts `MoltyAffinity`, lines 12-20). -/
structure MoltyAffinity where
  name : String
  repliedToMe : Nat
  iRepliedTo : Nat
  iUpvotedPosts : Nat
  iUpvotedComments : Nat
  sameSubmoltActivity : Nat
  lastInteraction : String
deriving DecidableEq

/-- The persistent agent state (memory.ts `AgentState`), restricted to the
fields read or written by the operations modelled below.  The TS
`moltyAffinities` is a string-keyed object whose values are returned by
`Object.values` in insertion order and always satisfy `value.name = key`
(they are created only by `getOrCreateAffinity`); it is modelled as the
list of its values, keyed by the `name` field. -/
structure AgentState where
  lastPostTime : Option Int
  lastFollowTime : Option Int
  lastFollowDate : Option String
  dailyFollowCount : Nat
  seenPostIds : List String
  commentedPostIds : List String
  upvotedPostIds : List String
  followedMolties : List String
  moltyAffinities : List MoltyAffinity
  stats : Stats
deriving DecidableEq

/-- Default state (memory.ts `DEFAULT_STATE`), restricted to the modelled
fields. -/
def DEFAULT_STATE : AgentState :=
  { lastPostTime := none
    lastFollowTime := none
    lastFollowDate := none
    dailyFollowCount := 0
    seenPostIds := []
    commentedPostIds := []
    upvotedPostIds := []
    followedMolties := []
    moltyAffinities := []
    stats := { totalComments := 0, totalPosts := 0, totalUpvotes := 0, totalFollows := 0 } }

/-- Cap on the remembered post-id lists (memory.ts line 79, `MAX_SEEN_IDS`). -/
def MAX_SEEN_IDS : Nat := 500

/-- The `if (list.length > MAX_SEEN_IDS) list = list.slice(-MAX_SEEN_IDS)`
step shared by `markSeen` / `markCommented` / `markUpvoted`:
`slice(-n)` keeps the last `n` elements, i.e. drops `length - n` from
the front. -/
def capList (l : List String) : List String :=
  if MAX_SEEN_IDS < l.length then l.drop (l.length - MAX_SEEN_IDS) else l

/-- Combined push-then-cap on a guarded id list; the common shape of the
three mark mutators' effect on their list field. -/
def pushCapped (l : List String) (id : String) : List String :=
  if id ∈ l then l else capList (l ++ [id])

/-- memory.ts `markSeen` (lines 132-143): append if absent, cap, save. -/
def markSeen (postId : String) (s : AgentState) : AgentState :=
  if postId ∈ s.seenPostIds then s
  else { s with seenPostIds := capList (s.seenPostIds ++ [postId]) }

/-- memory.ts `markCommented` (lines 180-193): append if absent, bump
`stats.totalComments`, cap, save. -/
def markCommented (postId : String) (s : AgentState) : AgentState :=
  if postId ∈ s.commentedPostIds then s
  else
    { s with
      commentedPostIds := capList (s.commentedPostIds ++ [postId])
      stats := { s.stats with totalComments := s.stats.totalComments + 1 } }

/-- memory.ts `markUpvoted` (lines 205-218): append if absent, bump
`stats.totalUpvotes`, cap, save. -/
def markUpvoted (postId : String) (s : AgentState) : AgentState :=
  if postId ∈ s.upvotedPostIds then s
  else
    { s with
      upvotedPostIds := capList (s.upvotedPostIds ++ [postId])
      stats := { s.stats with totalUpvotes := s.stats.totalUpvotes + 1 } }

/-- memory.ts `updateLastPostTime` (lines 238-242): record `now` and bump
`stats.totalPosts`. -/
def updateLastPostTime (now : Int) (s : AgentState) : AgentState :=
  { s with
    lastPostTime := some now
    stats := { s.stats with totalPosts := s.stats.totalPosts + 1 } }

/-- The `(now.getTime() - last.getTime()) / (1000 * 60)` expression shared
by the cooldown predicates. -/
def diffMinutes (now last : Int) : ℚ :=
  ((now - last : Int) : ℚ) / (1000 * 60)

/-- memory.ts `canPost` (lines 247-255): true when no post yet, else when
at least 30 minutes have elapsed. -/
def canPost (now : Int) (s : AgentState) : Bool :=
  match s.lastPostTime with
  | none => true
  | some last => decide ((30 : ℚ) ≤ diffMinutes now last)

/-- memory.ts `getMinutesUntilCanPost` (lines 260-268):
`Math.max(0, Math.ceil(30 - diffMinutes))`. -/
def getMinutesUntilCanPost (now : Int) (s : AgentState) : Int :=
  match s.lastPostTime with
  | none => 0
  | some last => max 0 ⌈(30 : ℚ) - diffMinutes now last⌉

/-- memory.ts `calculateAffinityScore` (lines 462-473): weighted sum of the
peer's counters, 0 for an unknown peer. -/
def calculateAffinityScore (s : AgentState) (moltyName : String) : Nat :=
  match s.moltyAffinities.find? (fun a => a.name == moltyName) with
  | none => 0
  | some a =>
      a.repliedToMe * 3 + a.iRepliedTo * 2 + a.iUpvotedPosts * 2 +
        a.iUpvotedComments * 1 + a.sameSubmoltActivity * 1

/-- memory.ts `getFollowCandidates` (lines 478-490): filter the affinity
records by score threshold and not-already-followed, then sort descending
by score.  JS `Array.prototype.sort` with comparator
`(a, b) => score(b) - score(a)` is a stable descending sort, modelled by
the stable `List.mergeSort` with `le a b := score(b) ≤ score(a)`. -/
def getFollowCandidates (threshold : Nat) (s : AgentState) : List MoltyAffinity :=
  (s.moltyAffinities.filter (fun a =>
      decide (threshold ≤ calculateAffinityScore s a.name) &&
      decide (a.name ∉ s.followedMolties))).mergeSort
    (fun a b => decide (calculateAffinityScore s b.name ≤ calculateAffinityScore s a.name))

/-- memory.ts `markFollowed` (lines 502-519).  `now` is the call instant,
`todayStr` its calendar date string.  No-op if the peer is already in
`followedMolties`; otherwise append, bump `stats.totalFollows`, set
`lastFollowTime`, and update the daily follow counter against the (old)
`lastFollowDate`. -/
def markFollowed (now : Int) (todayStr : String) (moltyName : String)
    (s : AgentState) : AgentState :=
  if moltyName ∈ s.followedMolties then s
  else
    let s1 :=
      { s with
        followedMolties := s.followedMolties ++ [moltyName]
        stats := { s.stats with totalFollows := s.stats.totalFollows + 1 }
        lastFollowTime := some now }
    if s.lastFollowDate = some todayStr then
      { s1 with dailyFollowCount := s1.dailyFollowCount + 1 }
    else
      { s1 with lastFollowDate := some todayStr, dailyFollowCount := 1 }

/-- memory.ts `canFollowToday` (lines 524-536).  Mutates: if the stored
date string differs from today's, the counter is reset to 0 and the date
updated (then saved); the returned flag is `dailyFollowCount < maxPerDay`
on the post-reset state.  Returns (flag, new state). -/
def canFollowToday (todayStr : String) (maxPerDay : Nat) (s : AgentState) :
    Bool × AgentState :=
  let s' :=
    if s.lastFollowDate = some todayStr then s
    else { s with lastFollowDate := some todayStr, dailyFollowCount := 0 }
  (decide (s'.dailyFollowCount < maxPerDay), s')

/-! ## Comment queue (src/src/commentQueue.ts) -/

/-- commentQueue.ts `CommentJob` (lines 12-20). -/
structure CommentJob where
  postId : String
  content : String
  parentId : Option String
  metadataPostTitle : Option String
  metadataTargetAuthor : Option String
deriving DecidableEq

/-- commentQueue.ts line 29: daily cap, deliberately below the documented
external limit of 50. -/
def MAX_DAILY_COMMENTS : Nat := 45

/-- In-memory fields of `CommentQueue` (lines 31-34). -/
structure QueueState where
  queue : List CommentJob
  dailyCount : Nat
  lastDate : Option String
deriving DecidableEq

/-- commentQueue.ts `resetDailyIfNeeded` (lines 51-60): lazily reset the
daily counter when the stored date string differs from today's. -/
def resetDailyIfNeeded (today : String) (q : QueueState) : QueueState :=
  if q.lastDate = some today then q
  else { q with dailyCount := 0, lastDate := some today }

/-- commentQueue.ts `enqueue` (lines 66-87): after the lazy daily reset,
reject (returning false, without throwing) when
`dailyCount + queue.length >= MAX_DAILY_COMMENTS`, else append the job
and return true. -/
def enqueue (today : String) (job : CommentJob) (q : QueueState) :
    Bool × QueueState :=
  let q := resetDailyIfNeeded today q
  if MAX_DAILY_COMMENTS ≤ q.dailyCount + q.queue.length then (false, q)
  else (true, { q with queue := q.queue ++ [job] })

/-- commentQueue.ts `dequeue` (lines 92-94): `queue.shift()`. -/
def dequeue (q : QueueState) : Option CommentJob × QueueState :=
  match q.queue with
  | [] => (none, q)
  | j :: rest => (some j, { q with queue := rest })

/-- commentQueue.ts `processOne` (lines 99-122).  `ok` models whether the
remote `moltbook.createComment` call succeeds.  The popped job is the
attempted delivery (first component); on success `dailyCount` is bumped,
on failure the job is simply dropped (the TS `catch` only logs), and the
method never throws. -/
def processOne (ok : Bool) (today : String) (q : QueueState) :
    Option CommentJob × QueueState :=
  match dequeue (resetDailyIfNeeded today q) with
  | (none, q') => (none, q')
  | (some j, q') =>
      if ok then (some j, { q' with dailyCount := q'.dailyCount + 1 })
      else (some j, q')

/-! ## Task scheduler (src/unnamed/part_004) -/

/-- Scheduler task configuration (`TaskConfig`): interval bounds in
minutes, plus the per-firing results of the optional `enabled()`
predicate (`enabledOk`, true when the predicate is absent) and of the
task body (`fnThrows` true when `config.fn()` rejects). -/
structure SchedTaskConfig where
  name : String
  intervalMin : Nat
  intervalMax : Nat
  enabledOk : Bool
  fnThrows : Bool
deriving DecidableEq

/-- Scheduler per-task state (`TaskState`): `timerId` is modelled by the
`scheduledDelayMs` component of a step result rather than stored. -/
structure SchedTaskState where
  config : SchedTaskConfig
  lastRun : Option ℚ
  nextRun : ℚ
  isRunning : Bool
deriving DecidableEq

/-- Which branch of `runTask` a firing took. -/
inductive RunOutcome
  | notRunning
  | skippedOverlap
  | skippedDisabled
  | ran
deriving DecidableEq

/-- Observable result of one `runTask` firing: the branch taken, how many
warning-level log events were emitted, how many times the task body was
started, the task state afterwards, and the delay of the timer armed for
the next firing (`none` when no timer was armed). -/
structure RunResult where
  outcome : RunOutcome
  warnings : Nat
  bodyInvocations : Nat
  state : SchedTaskState
  scheduledDelayMs : Option ℚ
deriving DecidableEq

/-- scheduler `getRandomInterval` (part_004 lines 175-179):
`minMs + Math.random() * (maxMs - minMs)`; the `Math.random()` draw in
`[0, 1)` is the explicit parameter `r`. -/
def getRandomInterval (minMinutes maxMinutes : Nat) (r : ℚ) : ℚ :=
  let minMs : ℚ := minMinutes * 60 * 1000
  let maxMs : ℚ := maxMinutes * 60 * 1000
  minMs + r * (maxMs - minMs)

/-- scheduler `scheduleTask` (part_004 lines 98-121): no-op when the
scheduler is stopped; otherwise set `nextRun = now + interval` and arm a
timer for `max 0 (nextRun - now)` ms.  Returns (armed delay, new state). -/
def scheduleTask (running : Bool) (now : ℚ) (r : ℚ) (st : SchedTaskState) :
    Option ℚ × SchedTaskState :=
  if !running then (none, st)
  else
    let intervalMs := getRandomInterval st.config.intervalMin st.config.intervalMax r
    let nextRun := now + intervalMs
    let delayMs := max 0 (nextRun - now)
    (some delayMs, { st with nextRun := nextRun })

/-- scheduler `runTask` (part_004 lines 126-169), one timer firing run to
completion.  `now` is the firing instant, `r` the fresh `Math.random()`
draw used by the rescheduling, `finishTime` the instant at which the task
body (if started) settles.  Branches, in source order: stopped scheduler
returns silently; a still-running previous invocation logs one warning,
does not start the body, and reschedules immediately; a false `enabled()`
skips and reschedules; otherwise the body runs exactly once with
`isRunning` held true for its duration (errors are caught and logged at
error level, `lastRun` is updated only on success, `isRunning` is cleared
in `finally`), then reschedules. -/
def runTask (running : Bool) (now : ℚ) (r : ℚ) (st : SchedTaskState)
    (finishTime : ℚ) : RunResult :=
  if !running then
    { outcome := RunOutcome.notRunning, warnings := 0, bodyInvocations := 0
      state := st, scheduledDelayMs := none }
  else if st.isRunning then
    let sched := scheduleTask running now r st
    { outcome := RunOutcome.skippedOverlap, warnings := 1, bodyInvocations := 0
      state := sched.2, scheduledDelayMs := sched.1 }
  else if !st.config.enabledOk then
    let sched := scheduleTask running now r st
    { outcome := RunOutcome.skippedDisabled, warnings := 0, bodyInvocations := 0
      state := sched.2, scheduledDelayMs := sched.1 }
  else
    let afterBody := if st.config.fnThrows then st else { st with lastRun := some finishTime }
    let st2 := { afterBody with isRunning := false }
    let sched := scheduleTask running finishTime r st2
    { outcome := RunOutcome.ran, warnings := 0, bodyInvocations := 1
      state := sched.2, scheduledDelayMs := sched.1 }

/-! ## Sleep-window classification (src/src/agent.ts) -/

/-- agent.ts `TodaysMood` fields used by `isSleepTime`; `sleepHour` may
exceed 24 to mean "up past midnight" (26 = 2 AM next day). -/
structure TodaysMood where
  sleepQuality : String
  wakeUpHour : Int
  sleepHour : Int
  energyMultiplier : ℚ
deriving DecidableEq

/-- agent.ts `isSleepTime` (lines 405-421): three-way split on
`sleepHour` relative to 24, translated branch for branch. -/
def isSleepTime (hour : Int) (mood : TodaysMood) : Bool :=
  if 24 < mood.sleepHour then
    let normalizedSleepHour := mood.sleepHour - 24
    decide (normalizedSleepHour ≤ hour) && decide (hour < mood.wakeUpHour)
  else if mood.sleepHour = 24 then
    decide (0 ≤ hour) && decide (hour < mood.wakeUpHour)
  else
    decide (mood.sleepHour ≤ hour) || decide (hour < mood.wakeUpHour)

/-- Sleeping-window predicate as worded by the spec (section 4.4 and
testable property 7): when `sleepHour > 24` the window is
`[sleepHour-24, wakeUpHour)`; when `sleepHour == 24` it is
`[0, wakeUpHour)`; otherwise an hour sleeps when
`hour >= sleepHour OR hour < wakeUpHour`.  Stated from the spec's words,
to be compared with the source-derived `isSleepTime`. -/
def sleepWindowPerSpec (hour : Int) (mood : TodaysMood) : Prop :=
  if 24 < mood.sleepHour then mood.sleepHour - 24 ≤ hour ∧ hour < mood.wakeUpHour
  else if mood.sleepHour = 24 then 0 ≤ hour ∧ hour < mood.wakeUpHour
  else mood.sleepHour ≤ hour ∨ hour < mood.wakeUpHour

/-- The insomnia regime of agent.ts `getTodaysMood` with the claim's
`{sleepHour: 26, wakeUpHour: 4}` values (wakeUpHour draws from 4-6). -/
def mood26_4 : TodaysMood :=
  { sleepQuality := "insomnia", wakeUpHour := 4, sleepHour := 26, energyMultiplier := 7/10 }

/-! ## Helper lemmas: the push-then-cap id lists -/

theorem mem_capList_append (l : List String) (id : String) :
    id ∈ capList (l ++ [id]) := by
  unfold capList
  split
  · next h =>
    have hM : MAX_SEEN_IDS = 500 := rfl
    have hk : (l ++ [id]).length - MAX_SEEN_IDS ≤ l.length := by
      simp only [List.length_append, List.length_singleton] at h ⊢
      omega
    rw [List.drop_append_of_le_length hk]
    exact List.mem_append_right _ (List.mem_singleton_self id)
  · exact List.mem_append_right _ (List.mem_singleton_self id)

theorem count_capList_append (l : List String) (id : String) (h : id ∉ l) :
    (capList (l ++ [id])).count id = 1 := by
  have h0 : l.count id = 0 := List.count_eq_zero.mpr h
  unfold capList
  split
  · next hlen =>
    have hM : MAX_SEEN_IDS = 500 := rfl
    have hk : (l ++ [id]).length - MAX_SEEN_IDS ≤ l.length := by
      simp only [List.length_append, List.length_singleton] at hlen ⊢
      omega
    rw [List.drop_append_of_le_length hk, List.count_append]
    have hdrop : ∀ k, (l.drop k).count id = 0 := fun k =>
      List.count_eq_zero.mpr (fun hm => h (List.drop_subset _ _ hm))
    simp [hdrop]
  · rw [List.count_append]
    simp [h0]

theorem markSeen_of_mem {id : String} {s : AgentState}
    (h : id ∈ s.seenPostIds) : markSeen id s = s := by
  unfold markSeen
  simp [h]

theorem mem_markSeen (id : String) (s : AgentState) :
    id ∈ (markSeen id s).seenPostIds := by
  unfold markSeen
  split
  · assumption
  · exact mem_capList_append s.seenPostIds id

theorem markCommented_of_mem {id : String} {s : AgentState}
    (h : id ∈ s.commentedPostIds) : markCommented id s = s := by
  unfold markCommented
  simp [h]

theorem mem_markCommented (id : String) (s : AgentState) :
    id ∈ (markCommented id s).commentedPostIds := by
  unfold markCommented
  split
  · assumption
  · exact mem_capList_append s.commentedPostIds id

theorem markUpvoted_of_mem {id : String} {s : AgentState}
    (h : id ∈ s.upvotedPostIds) : markUpvoted id s = s := by
  unfold markUpvoted
  simp [h]

theorem mem_markUpvoted (id : String) (s : AgentState) :
    id ∈ (markUpvoted id s).upvotedPostIds := by
  unfold markUpvoted
  split
  · assumption
  · exact mem_capList_append s.upvotedPostIds id

/-! ## Claim C1 -/

/-- Concrete store state in which post id "p1" has already been marked
commented; all stats counters are 0. -/
def stateWithP1Commented : AgentState :=
  { DEFAULT_STATE with commentedPostIds := ["p1"] }

/-- C1, counterexample.  The claim quantifies over every state of the
store, but when the ID is already in the membership set both calls are
no-ops: starting from a state whose `commentedPostIds` already holds
"p1", calling `markCommented "p1"` twice leaves `stats.totalComments` at
0, not incremented exactly once. -/
theorem c1_mark_already_present_not_incremented :
    (markCommented "p1" (markCommented "p1" stateWithP1Commented)).stats.totalComments ≠
      stateWithP1Commented.stats.totalComments + 1 := by
  decide

/-- C1 (amended): for an ID not already present in the corresponding
membership set, calling `markSeen` / `markCommented` / `markUpvoted`
twice in succession yields the same state as calling it once; afterwards
the ID occurs exactly once in the corresponding list, and the
corresponding stats counter (`totalComments` for `markCommented`,
`totalUpvotes` for `markUpvoted`; `markSeen` has no counter) has been
incremented exactly once relative to the state before the first call.
(If the ID is already present, every call is a no-op and no counter
moves — see the counterexample.) -/
theorem c1_mark_idempotent_fresh (s : AgentState) (id : String)
    (h1 : id ∉ s.seenPostIds) (h2 : id ∉ s.commentedPostIds)
    (h3 : id ∉ s.upvotedPostIds) :
    (markSeen id (markSeen id s) = markSeen id s ∧
      markCommented id (markCommented id s) = markCommented id s ∧
      markUpvoted id (markUpvoted id s) = markUpvoted id s) ∧
    ((markSeen id (markSeen id s)).seenPostIds.count id = 1 ∧
      (markCommented id (markCommented id s)).commentedPostIds.count id = 1 ∧
      (markUpvoted id (markUpvoted id s)).upvotedPostIds.count id = 1) ∧
    ((markCommented id (markCommented id s)).stats.totalComments
        = s.stats.totalComments + 1 ∧
      (markUpvoted id (markUpvoted id s)).stats.totalUpvotes
        = s.stats.totalUpvotes + 1) := by
  have idemS : markSeen id (markSeen id s) = markSeen id s :=
    markSeen_of_mem (mem_markSeen id s)
  have idemC : markCommented id (markCommented id s) = markCommented id s :=
    markCommented_of_mem (mem_markCommented id s)
  have idemU : markUpvoted id (markUpvoted id s) = markUpvoted id s :=
    markUpvoted_of_mem (mem_markUpvoted id s)
  refine ⟨⟨idemS, idemC, idemU⟩, ⟨?_, ?_, ?_⟩, ⟨?_, ?_⟩⟩
  · rw [idemS]
    unfold markSeen
    simp only [h1, if_neg]
    exact count_capList_append s.seenPostIds id h1
  · rw [idemC]
    unfold markCommented
    simp only [h2, if_neg]
    exact count_capList_append s.commentedPostIds id h2
  · rw [idemU]
    unfold markUpvoted
    simp only [h3, if_neg]
    exact count_capList_append s.upvotedPostIds id h3
  · rw [idemC]
    unfold markCommented
    simp [h2]
  · rw [idemU]
    unfold markUpvoted
    simp [h3]

/-- C1, witness: the amended theorem applied at the default (empty) store
and the fresh id "x". -/
theorem c1_mark_idempotent_fresh_witness :
    ("x" ∉ DEFAULT_STATE.seenPostIds ∧ "x" ∉ DEFAULT_STATE.commentedPostIds ∧
      "x" ∉ DEFAULT_STATE.upvotedPostIds) ∧
    markSeen "x" (markSeen "x" DEFAULT_STATE) = markSeen "x" DEFAULT_STATE ∧
    (markCommented "x" (markCommented "x" DEFAULT_STATE)).stats.totalComments =
      DEFAULT_STATE.stats.totalComments + 1 := by
  refine ⟨⟨by decide, by decide, by decide⟩, ?_, ?_⟩
  · exact (c1_mark_idempotent_fresh DEFAULT_STATE "x" (by decide) (by decide)
      (by decide)).1.1
  · exact (c1_mark_idempotent_fresh DEFAULT_STATE "x" (by decide) (by decide)
      (by decide)).2.2.1

/-! ## Claim C5 -/

/-- Folding a nodup list of ids into an empty guarded-capped list keeps
exactly the most recent `MAX_SEEN_IDS` of them, in insertion order. -/
theorem foldl_pushCapped_nodup (p : List String) :
    p.Nodup → p.foldl pushCapped [] = p.drop (p.length - MAX_SEEN_IDS) := by
  have hM : MAX_SEEN_IDS = 500 := rfl
  induction p using List.reverseRecOn with
  | nil => intro _; simp
  | append_singleton q id ih =>
    intro hp
    rw [List.nodup_append] at hp
    obtain ⟨hq, _, hdisj⟩ := hp
    have hid : id ∉ q := fun hm => hdisj hm (List.mem_singleton_self id)
    have hid' : id ∉ q.drop (q.length - MAX_SEEN_IDS) := fun hm =>
      hid (List.drop_subset _ _ hm)
    rw [List.foldl_append, List.foldl_cons, List.foldl_nil, ih hq]
    unfold pushCapped capList
    rw [if_neg hid']
    by_cases hlen : MAX_SEEN_IDS ≤ q.length
    · have hlen500 : (q.drop (q.length - MAX_SEEN_IDS)).length = MAX_SEEN_IDS := by
        rw [List.length_drop]; omega
      have hcond :
          MAX_SEEN_IDS < (q.drop (q.length - MAX_SEEN_IDS) ++ [id]).length := by
        rw [List.length_append, hlen500, List.length_singleton]; omega
      rw [if_pos hcond]
      have hone :
          (q.drop (q.length - MAX_SEEN_IDS) ++ [id]).length - MAX_SEEN_IDS = 1 := by
        rw [List.length_append, hlen500, List.length_singleton]; omega
      rw [hone]
      have e1 : (q.drop (q.length - MAX_SEEN_IDS) ++ [id]).drop 1
          = (q.drop (q.length - MAX_SEEN_IDS)).drop 1 ++ [id] :=
        List.drop_append_of_le_length (by rw [hlen500]; omega)
      rw [e1, List.drop_drop]
      have hle : (q ++ [id]).length - MAX_SEEN_IDS ≤ q.length := by
        rw [List.length_append, List.length_singleton]; omega
      have e2 : (q ++ [id]).drop ((q ++ [id]).length - MAX_SEEN_IDS)
          = q.drop ((q ++ [id]).length - MAX_SEEN_IDS) ++ [id] :=
        List.drop_append_of_le_length hle
      rw [e2]
      have e3 : q.length - MAX_SEEN_IDS + 1 = (q ++ [id]).length - MAX_SEEN_IDS := by
        rw [List.length_append, List.length_singleton]; omega
      rw [e3]
    · have h1 : q.length - MAX_SEEN_IDS = 0 := by omega
      rw [h1, List.drop_zero]
      have hcond : ¬ MAX_SEEN_IDS < (q ++ [id]).length := by
        rw [List.length_append, List.length_singleton]; omega
      rw [if_neg hcond]
      have h2 : (q ++ [id]).length - MAX_SEEN_IDS = 0 := by
        simp only [List.length_append, List.length_singleton]; omega
      rw [h2, List.drop_zero]

/-- Repeated `markSeen` over a list of ids, leftmost first. -/
def markSeenAll (ids : List String) (s : AgentState) : AgentState :=
  ids.foldl (fun t id => markSeen id t) s

/-- Repeated `markCommented` over a list of ids, leftmost first. -/
def markCommentedAll (ids : List String) (s : AgentState) : AgentState :=
  ids.foldl (fun t id => markCommented id t) s

/-- Repeated `markUpvoted` over a list of ids, leftmost first. -/
def markUpvotedAll (ids : List String) (s : AgentState) : AgentState :=
  ids.foldl (fun t id => markUpvoted id t) s

theorem markSeen_seenPostIds (id : String) (s : AgentState) :
    (markSeen id s).seenPostIds = pushCapped s.seenPostIds id := by
  unfold markSeen pushCapped
  by_cases h : id ∈ s.seenPostIds <;> simp [h]

theorem markCommented_commentedPostIds (id : String) (s : AgentState) :
    (markCommented id s).commentedPostIds = pushCapped s.commentedPostIds id := by
  unfold markCommented pushCapped
  by_cases h : id ∈ s.commentedPostIds <;> simp [h]

theorem markUpvoted_upvotedPostIds (id : String) (s : AgentState) :
    (markUpvoted id s).upvotedPostIds = pushCapped s.upvotedPostIds id := by
  unfold markUpvoted pushCapped
  by_cases h : id ∈ s.upvotedPostIds <;> simp [h]

theorem markSeenAll_seenPostIds (ids : List String) :
    ∀ s : AgentState,
      (markSeenAll ids s).seenPostIds = ids.foldl pushCapped s.seenPostIds := by
  induction ids with
  | nil => intro s; rfl
  | cons id ids ih =>
    intro s
    show (markSeenAll ids (markSeen id s)).seenPostIds = _
    rw [ih (markSeen id s), markSeen_seenPostIds]
    rfl

theorem markCommentedAll_commentedPostIds (ids : List String) :
    ∀ s : AgentState,
      (markCommentedAll ids s).commentedPostIds
        = ids.foldl pushCapped s.commentedPostIds := by
  induction ids with
  | nil => intro s; rfl
  | cons id ids ih =>
    intro s
    show (markCommentedAll ids (markCommented id s)).commentedPostIds = _
    rw [ih (markCommented id s), markCommented_commentedPostIds]
    rfl

theorem markUpvotedAll_upvotedPostIds (ids : List String) :
    ∀ s : AgentState,
      (markUpvotedAll ids s).upvotedPostIds
        = ids.foldl pushCapped s.upvotedPostIds := by
  induction ids with
  | nil => intro s; rfl
  | cons id ids ih =>
    intro s
    show (markUpvotedAll ids (markUpvoted id s)).upvotedPostIds = _
    rw [ih (markUpvoted id s), markUpvoted_upvotedPostIds]
    rfl

/-- C5: inserting more than `MAX_SEEN_IDS = 500` distinct IDs into an
initially empty store via `markSeen` leaves `seenPostIds` with exactly
the 500 most-recently-inserted IDs (the oldest having been evicted
first, so the result is the final 500-suffix of the insertion sequence)
and size exactly 500; the same holds for `commentedPostIds` under
`markCommented` and `upvotedPostIds` under `markUpvoted`. -/
theorem c5_bounded_sets (ids : List String) (h1 : ids.Nodup)
    (h2 : MAX_SEEN_IDS < ids.length) :
    ((markSeenAll ids DEFAULT_STATE).seenPostIds
        = ids.drop (ids.length - MAX_SEEN_IDS) ∧
      (markSeenAll ids DEFAULT_STATE).seenPostIds.length = MAX_SEEN_IDS) ∧
    ((markCommentedAll ids DEFAULT_STATE).commentedPostIds
        = ids.drop (ids.length - MAX_SEEN_IDS) ∧
      (markCommentedAll ids DEFAULT_STATE).commentedPostIds.length = MAX_SEEN_IDS) ∧
    ((markUpvotedAll ids DEFAULT_STATE).upvotedPostIds
        = ids.drop (ids.length - MAX_SEEN_IDS) ∧
      (markUpvotedAll ids DEFAULT_STATE).upvotedPostIds.length = MAX_SEEN_IDS) := by
  have hM : MAX_SEEN_IDS = 500 := rfl
  have hseen : (markSeenAll ids DEFAULT_STATE).seenPostIds
      = ids.drop (ids.length - MAX_SEEN_IDS) := by
    rw [markSeenAll_seenPostIds]
    exact foldl_pushCapped_nodup ids h1
  have hcom : (markCommentedAll ids DEFAULT_STATE).commentedPostIds
      = ids.drop (ids.length - MAX_SEEN_IDS) := by
    rw [markCommentedAll_commentedPostIds]
    exact foldl_pushCapped_nodup ids h1
  have hup : (markUpvotedAll ids DEFAULT_STATE).upvotedPostIds
      = ids.drop (ids.length - MAX_SEEN_IDS) := by
    rw [markUpvotedAll_upvotedPostIds]
    exact foldl_pushCapped_nodup ids h1
  refine ⟨⟨hseen, ?_⟩, ⟨hcom, ?_⟩, ⟨hup, ?_⟩⟩
  · rw [hseen, List.length_drop]; omega
  · rw [hcom, List.length_drop]; omega
  · rw [hup, List.length_drop]; omega

/-- A list of 501 pairwise-distinct id strings. -/
def ids501 : List String :=
  (List.range 501).map (fun n => String.mk (List.replicate n 'a'))

/-- C5, witness: the theorem applied to the concrete 501-element list of
distinct ids. -/
theorem c5_bounded_sets_witness :
    (ids501.Nodup ∧ MAX_SEEN_IDS < ids501.length) ∧
    (markSeenAll ids501 DEFAULT_STATE).seenPostIds
      = ids501.drop (ids501.length - MAX_SEEN_IDS) := by
  have hinj : Function.Injective (fun n => String.mk (List.replicate n 'a')) := by
    intro m n hmn
    have h2 : List.replicate m 'a' = List.replicate n 'a' := congrArg String.data hmn
    have h3 := congrArg List.length h2
    simpa using h3
  have hnd : ids501.Nodup := (List.nodup_range 501).map hinj
  have hlen : MAX_SEEN_IDS < ids501.length := by
    show MAX_SEEN_IDS < ((List.range 501).map _).length
    rw [List.length_map, List.length_range]
    decide
  exact ⟨⟨hnd, hlen⟩, (c5_bounded_sets ids501 hnd hlen).1.1⟩

/-! ## Claim C2 -/

/-- C2: with the stored date current (so the lazy daily reset of
`resetDailyIfNeeded` is a no-op), `enqueue` returns false — without
throwing, being a total function — exactly when
`dailyCount + queue.length >= MAX_DAILY_COMMENTS = 45`, queued-but-unsent
jobs counting against the cap, and in that case leaves the queue state
unchanged; otherwise it appends the job and returns true.  In
particular, from `dailyCount = 44` and an empty queue, one enqueue
succeeds and the immediately following enqueue is rejected. -/
theorem c2_enqueue_daily_cap (q : QueueState) (job job2 : CommentJob)
    (today : String) (h : q.lastDate = some today) :
    ((enqueue today job q).1 = false ↔
      MAX_DAILY_COMMENTS ≤ q.dailyCount + q.queue.length) ∧
    ((enqueue today job q).1 = false → (enqueue today job q).2 = q) ∧
    ((enqueue today job q).1 = true →
      (enqueue today job q).2 = { q with queue := q.queue ++ [job] }) ∧
    (q.dailyCount = 44 → q.queue = [] →
      (enqueue today job q).1 = true ∧
      (enqueue today job2 (enqueue today job q).2).1 = false) := by
  have hr : resetDailyIfNeeded today q = q := by
    unfold resetDailyIfNeeded
    rw [if_pos h]
  by_cases hc : MAX_DAILY_COMMENTS ≤ q.dailyCount + q.queue.length
  · refine ⟨by simp [enqueue, hr, hc], fun _ => by simp [enqueue, hr, hc], ?_, ?_⟩
    · intro htrue
      simp [enqueue, hr, hc] at htrue
    · intro h44 hqe
      rw [h44, hqe] at hc
      simp [MAX_DAILY_COMMENTS] at hc
  · refine ⟨by simp [enqueue, hr, hc], ?_, fun _ => by simp [enqueue, hr, hc], ?_⟩
    · intro hfalse
      simp [enqueue, hr, hc] at hfalse
    · intro h44 hqe
      refine ⟨by simp [enqueue, hr, hc], ?_⟩
      have hq2 : (enqueue today job q).2
          = { queue := [job], dailyCount := 44, lastDate := q.lastDate } := by
        simp [enqueue, hr, hc, h44, hqe, MAX_DAILY_COMMENTS]
      rw [hq2]
      have hr2 : resetDailyIfNeeded today
            { queue := [job], dailyCount := 44, lastDate := q.lastDate }
          = { queue := [job], dailyCount := 44, lastDate := q.lastDate } := by
        unfold resetDailyIfNeeded
        simp [h]
      simp [enqueue, hr2, MAX_DAILY_COMMENTS]

/-- C2, witness: a queue state one short of the cap with the stored date
current; the first enqueue succeeds, the second is rejected. -/
def queue44 : QueueState := { queue := [], dailyCount := 44, lastDate := some "2026-10-11" }

/-- A throwaway comment job for the queue witnesses. -/
def jobA : CommentJob :=
  { postId := "post-1", content := "hello", parentId := none
    metadataPostTitle := none, metadataTargetAuthor := none }

/-- C2, witness instance. -/
theorem c2_enqueue_daily_cap_witness :
    (queue44.lastDate = some "2026-10-11" ∧ queue44.dailyCount = 44 ∧
      queue44.queue = []) ∧
    (enqueue "2026-10-11" jobA queue44).1 = true ∧
    (enqueue "2026-10-11" jobA (enqueue "2026-10-11" jobA queue44).2).1 = false := by
  refine ⟨⟨rfl, rfl, rfl⟩, ?_⟩
  exact (c2_enqueue_daily_cap queue44 jobA jobA "2026-10-11" rfl).2.2.2 rfl rfl

/-! ## Claim C3 -/

/-- C3: with the stored date current, `processOne` pops the queue head
(FIFO order): on an empty queue it does nothing; otherwise the head is
the one job delivered, and — whatever the outcome of the remote write —
the tail becomes the new queue, so the job is never re-enqueued or
retried (at-most-once delivery); `dailyCount` is incremented by exactly
one when the remote write succeeds (`ok = true`) and unchanged when it
fails; the TS `catch` turns a failed write into a logged drop, and the
embedding is a total function, so the method does not throw. -/
theorem c3_processOne_fifo_at_most_once (q : QueueState) (today : String)
    (ok : Bool) (j : CommentJob) (rest : List CommentJob)
    (h : q.lastDate = some today) (hq : q.queue = j :: rest) :
    (processOne ok today q).1 = some j ∧
    (processOne ok today q).2.queue = rest ∧
    (processOne ok today q).2.dailyCount
      = (if ok then q.dailyCount + 1 else q.dailyCount) ∧
    (∀ r : QueueState, r.lastDate = some today → r.queue = [] →
      processOne ok today r = (none, r)) := by
  have hr : resetDailyIfNeeded today q = q := by
    unfold resetDailyIfNeeded
    rw [if_pos h]
  have hd : dequeue q = (some j, { q with queue := rest }) := by
    unfold dequeue
    rw [hq]
  have hmain : processOne ok today q =
      (some j,
        if ok then { q with queue := rest, dailyCount := q.dailyCount + 1 }
        else { q with queue := rest }) := by
    unfold processOne
    rw [hr, hd]
    cases ok <;> rfl
  refine ⟨by rw [hmain], ?_, ?_, ?_⟩
  · rw [hmain]
    cases ok <;> rfl
  · rw [hmain]
    cases ok <;> rfl
  · intro r hlast hempty
    have hrr : resetDailyIfNeeded today r = r := by
      unfold resetDailyIfNeeded
      rw [if_pos hlast]
    have hdr : dequeue r = (none, r) := by
      unfold dequeue
      rw [hempty]
    unfold processOne
    rw [hrr, hdr]

/-- C3, witness: a two-job queue with the stored date current, processed
with a successful remote write. -/
def queueTwoJobs : QueueState :=
  { queue := [jobA, { jobA with postId := "post-2" }], dailyCount := 3
    lastDate := some "2026-10-11" }

/-- C3, witness instance. -/
theorem c3_processOne_witness :
    (queueTwoJobs.lastDate = some "2026-10-11" ∧
      queueTwoJobs.queue = [jobA, { jobA with postId := "post-2" }]) ∧
    (processOne true "2026-10-11" queueTwoJobs).1 = some jobA ∧
    (processOne true "2026-10-11" queueTwoJobs).2.queue
      = [{ jobA with postId := "post-2" }] ∧
    (processOne true "2026-10-11" queueTwoJobs).2.dailyCount
      = (if True then queueTwoJobs.dailyCount + 1 else queueTwoJobs.dailyCount) := by
  have hmain := c3_processOne_fifo_at_most_once queueTwoJobs "2026-10-11" true jobA
    [{ jobA with postId := "post-2" }] rfl rfl
  exact ⟨⟨rfl, rfl⟩, hmain.1, hmain.2.1, by rw [hmain.2.2.1]; simp⟩

/-! ## Claim C4 -/

/-- C4: if a task's timer fires (`runTask` with the scheduler running)
while the previous invocation of that task has not completed (its
`isRunning` flag still true), that firing is skipped: the task body is
never started (`bodyInvocations = 0`), exactly one warning-level event
is logged, and a next run is immediately rescheduled with a freshly
drawn random delay (the armed delay is `getRandomInterval` at the fresh
draw `r`, clamped at 0).  The missed firing is never queued or
coalesced: the resulting task state differs from the old one only in
`nextRun`, and exactly the one rescheduled timer is armed. -/
theorem c4_no_overlap_skip (now r finishTime : ℚ) (st : SchedTaskState)
    (hrun : st.isRunning = true) :
    (runTask true now r st finishTime).outcome = RunOutcome.skippedOverlap ∧
    (runTask true now r st finishTime).bodyInvocations = 0 ∧
    (runTask true now r st finishTime).warnings = 1 ∧
    (runTask true now r st finishTime).scheduledDelayMs
      = some (max 0 (getRandomInterval st.config.intervalMin st.config.intervalMax r)) ∧
    (runTask true now r st finishTime).state
      = { st with
          nextRun := now + getRandomInterval st.config.intervalMin st.config.intervalMax r } := by
  have hI : now + getRandomInterval st.config.intervalMin st.config.intervalMax r - now
      = getRandomInterval st.config.intervalMin st.config.intervalMax r :=
    add_sub_cancel_left now _
  refine ⟨?_, ?_, ?_, ?_, ?_⟩ <;> simp [runTask, scheduleTask, hrun, hI]

/-- Scheduler task state whose previous invocation is still running. -/
def taskBusy : SchedTaskState :=
  { config :=
      { name := "feedCheck", intervalMin := 30, intervalMax := 60
        enabledOk := true, fnThrows := false }
    lastRun := none, nextRun := 0, isRunning := true }

/-- C4, witness instance: a firing arriving while `taskBusy` is still
running is skipped with one warning and no body invocation. -/
theorem c4_no_overlap_skip_witness :
    taskBusy.isRunning = true ∧
    (runTask true 0 (1/2) taskBusy 0).bodyInvocations = 0 ∧
    (runTask true 0 (1/2) taskBusy 0).warnings = 1 ∧
    (runTask true 0 (1/2) taskBusy 0).outcome = RunOutcome.skippedOverlap := by
  have hmain := c4_no_overlap_skip 0 (1/2) 0 taskBusy rfl
  exact ⟨rfl, hmain.2.1, hmain.2.2.1, hmain.1⟩

/-! ## Claim C9 -/

/-- C9, counterexample: the claim classifies hour = 25 ("1 AM
normalized") as sleeping for the regime `{sleepHour: 26, wakeUpHour: 4}`,
but the code's `sleepHour > 24` branch evaluates
`25 >= 26 - 24 && 25 < 4`, which is false — consistent with the claim's
own general rule, whose window `[2, 4)` excludes 25.  (Callers only ever
pass `new Date().getHours()`, i.e. 0..23, so hour 25 never arises at
runtime.) -/
theorem c9_hour25_not_sleeping : isSleepTime 25 mood26_4 = false := by decide

/-- C9 (amended): for the day-regime `{sleepHour: 26, wakeUpHour: 4}` the
sleep-time test classifies hour = 3 as sleeping and hour = 5 as not
sleeping, while hour = 25 is not sleeping (it lies outside the window
`[sleepHour-24, wakeUpHour) = [2, 4)`); and in general `isSleepTime`
agrees with the spec's window rule (`sleepWindowPerSpec`): when
`sleepHour > 24` the sleeping window is `[sleepHour-24, wakeUpHour)`,
when `sleepHour == 24` it is `[0, wakeUpHour)`, and otherwise an hour is
sleeping when `hour >= sleepHour` or `hour < wakeUpHour`. -/
theorem c9_sleep_window (hour : Int) (mood : TodaysMood) :
    (isSleepTime 3 mood26_4 = true ∧ isSleepTime 5 mood26_4 = false ∧
      isSleepTime 25 mood26_4 = false) ∧
    (isSleepTime hour mood = true ↔ sleepWindowPerSpec hour mood) := by
  refine ⟨⟨by decide, by decide, by decide⟩, ?_⟩
  unfold isSleepTime sleepWindowPerSpec
  by_cases h1 : 24 < mood.sleepHour
  · simp [h1]
  · by_cases h2 : mood.sleepHour = 24
    · simp [h1, h2]
    · simp [h1, h2]

/-! ## Claim C7 -/

/-- C7, counterexample: `getMinutesUntilCanPost` is computed with
`Math.ceil`, so it is constant across sub-minute advances of the
evaluation time: one second after `updateLastPostTime` it still reports
30, the same value as at the instant of the update itself — the value
does not strictly decrease as the evaluation time advances past the
update. -/
theorem c7_minutes_not_strictly_decreasing :
    ¬ (getMinutesUntilCanPost 1000 (updateLastPostTime 0 DEFAULT_STATE)
        < getMinutesUntilCanPost 0 (updateLastPostTime 0 DEFAULT_STATE)) := by
  have hceil : (⌈(30 : ℚ) - 1/60⌉ : ℤ) = 30 := by
    rw [Int.ceil_eq_iff]
    constructor <;> norm_num
  have h0 : getMinutesUntilCanPost 0 (updateLastPostTime 0 DEFAULT_STATE) = 30 := by
    show max 0 ⌈(30 : ℚ) - diffMinutes 0 0⌉ = 30
    have hd : diffMinutes 0 0 = 0 := by
      unfold diffMinutes
      norm_num
    rw [hd]
    norm_num
  have h1 : getMinutesUntilCanPost 1000 (updateLastPostTime 0 DEFAULT_STATE) = 30 := by
    show max 0 ⌈(30 : ℚ) - diffMinutes 1000 0⌉ = 30
    have hd : diffMinutes 1000 0 = 1/60 := by
      unfold diffMinutes
      norm_num
    rw [hd, hceil]
    norm_num
  rw [h0, h1]
  omega

/-- C7 (amended): after `updateLastPostTime` at time `t` (milliseconds),
`canPost` evaluated at `tq` returns true exactly when at least 30
minutes (`30 * 60000` ms) have elapsed and false exactly when fewer
have; `getMinutesUntilCanPost` never returns a negative value, is
nonincreasing as the evaluation time advances (not strictly decreasing —
`Math.ceil` keeps it constant within each minute, see the
counterexample), and reaches 0 exactly when the 30-minute cooldown has
elapsed. -/
theorem c7_cooldown (t tq t1 t2 : Int) (s : AgentState) (h12 : t1 ≤ t2) :
    (canPost tq (updateLastPostTime t s) = true ↔ 30 * 60000 ≤ tq - t) ∧
    (canPost tq (updateLastPostTime t s) = false ↔ tq - t < 30 * 60000) ∧
    0 ≤ getMinutesUntilCanPost tq (updateLastPostTime t s) ∧
    getMinutesUntilCanPost t2 (updateLastPostTime t s)
      ≤ getMinutesUntilCanPost t1 (updateLastPostTime t s) ∧
    (getMinutesUntilCanPost tq (updateLastPostTime t s) = 0 ↔ 30 * 60000 ≤ tq - t) := by
  have hkey : ∀ u : Int, ((30 : ℚ) ≤ diffMinutes u t ↔ 30 * 60000 ≤ u - t) := by
    intro u
    unfold diffMinutes
    rw [le_div_iff₀ (by norm_num : (0 : ℚ) < 1000 * 60)]
    rw [show ((30 : ℚ) * (1000 * 60)) = ((30 * 60000 : Int) : ℚ) by norm_num]
    exact Int.cast_le
  refine ⟨?_, ?_, ?_, ?_, ?_⟩
  · show decide ((30 : ℚ) ≤ diffMinutes tq t) = true ↔ _
    rw [decide_eq_true_iff]
    exact hkey tq
  · show decide ((30 : ℚ) ≤ diffMinutes tq t) = false ↔ _
    rw [decide_eq_false_iff_not, hkey tq]
    omega
  · exact le_max_left 0 _
  · show max 0 ⌈(30 : ℚ) - diffMinutes t2 t⌉ ≤ max 0 ⌈(30 : ℚ) - diffMinutes t1 t⌉
    have hd : diffMinutes t1 t ≤ diffMinutes t2 t := by
      unfold diffMinutes
      have hcast : ((t1 - t : Int) : ℚ) ≤ ((t2 - t : Int) : ℚ) := by
        exact_mod_cast (by omega : t1 - t ≤ t2 - t)
      gcongr
    exact max_le_max le_rfl (Int.ceil_mono (by linarith))
  · show max 0 ⌈(30 : ℚ) - diffMinutes tq t⌉ = 0 ↔ _
    rw [← hkey tq]
    constructor
    · intro hmax
      have hle : (⌈(30 : ℚ) - diffMinutes tq t⌉ : ℤ) ≤ 0 := by omega
      rw [Int.ceil_le] at hle
      push_cast at hle
      linarith
    · intro h30
      have hle : (30 : ℚ) - diffMinutes tq t ≤ 0 := by linarith
      have := Int.ceil_le.mpr (by push_cast; linarith : (30 : ℚ) - diffMinutes tq t ≤ ((0 : ℤ) : ℚ))
      omega

/-- C7, witness: the amended theorem applied at the update instant 0 and
evaluation instants 0 ms, 1 ms and 30 minutes. -/
theorem c7_cooldown_witness :
    ((0 : Int) ≤ 1) ∧
    canPost (30 * 60000) (updateLastPostTime 0 DEFAULT_STATE) = true ∧
    0 ≤ getMinutesUntilCanPost (30 * 60000) (updateLastPostTime 0 DEFAULT_STATE) ∧
    getMinutesUntilCanPost 1 (updateLastPostTime 0 DEFAULT_STATE)
      ≤ getMinutesUntilCanPost 0 (updateLastPostTime 0 DEFAULT_STATE) := by
  have hmain := c7_cooldown 0 (30 * 60000) 0 1 DEFAULT_STATE (by omega)
  exact ⟨by omega, hmain.1.mpr (by omega), hmain.2.2.1, hmain.2.2.2.1⟩

/-! ## Claim C8 -/

/-- C8: with `dailyFollowCount = 5` and `lastFollowDate` equal to the
current calendar date `d`, `canFollowToday` with `maxPerDay = 5` returns
false and leaves the state untouched; evaluated with any other calendar
date string (in particular the next day: the reset is decided purely by
comparing calendar date strings — the function has no elapsed-duration
input — so a follow at 23:59 followed by a check after midnight resets
the counter) it returns true, resets `dailyFollowCount` to 0 and stores
the new date. -/
theorem c8_daily_follow_reset (s : AgentState) (d d' : String)
    (h5 : s.dailyFollowCount = 5) (hd : s.lastFollowDate = some d)
    (hne : d' ≠ d) :
    (canFollowToday d 5 s).1 = false ∧
    (canFollowToday d 5 s).2 = s ∧
    (canFollowToday d' 5 s).1 = true ∧
    (canFollowToday d' 5 s).2.dailyFollowCount = 0 ∧
    (canFollowToday d' 5 s).2.lastFollowDate = some d' := by
  have hne' : ¬ (s.lastFollowDate = some d') := by
    rw [hd]
    intro hc
    exact hne (Option.some.inj hc).symm
  have hne2 : ¬ (d = d') := fun hc => hne hc.symm
  refine ⟨?_, ?_, ?_, ?_, ?_⟩ <;> simp [canFollowToday, hd, h5, hne', hne2]

/-- State with five follows already recorded on 2026-10-10. -/
def followState5 : AgentState :=
  { DEFAULT_STATE with dailyFollowCount := 5, lastFollowDate := some "2026-10-10" }

/-- C8, witness instance: blocked on the stored date, allowed (and reset)
on the next calendar date. -/
theorem c8_daily_follow_reset_witness :
    (followState5.dailyFollowCount = 5 ∧
      followState5.lastFollowDate = some "2026-10-10" ∧
      "2026-10-11" ≠ "2026-10-10") ∧
    (canFollowToday "2026-10-10" 5 followState5).1 = false ∧
    (canFollowToday "2026-10-11" 5 followState5).1 = true ∧
    (canFollowToday "2026-10-11" 5 followState5).2.dailyFollowCount = 0 := by
  have hmain := c8_daily_follow_reset followState5 "2026-10-10" "2026-10-11"
    rfl rfl (by decide)
  exact ⟨⟨rfl, rfl, by decide⟩, hmain.1, hmain.2.2.1, hmain.2.2.2.1⟩

/-! ## Claim C10 -/

/-- C10: `markFollowed` is idempotent at the public interface: a call
with a peer name already contained in `followedMolties` leaves the
entire state unchanged (so a repeated call at any later instant is a
no-op on `followedMolties`, `stats.totalFollows`, `dailyFollowCount`,
`lastFollowDate` and `lastFollowTime` alike), while the first call for a
not-yet-followed peer appends the name exactly once, increments
`stats.totalFollows` by one, bumps `dailyFollowCount` by one when
`lastFollowDate` is already today and sets it to 1 otherwise, stores
today as `lastFollowDate`, and records `lastFollowTime`. -/
theorem c10_markFollowed_idempotent (now now2 : Int)
    (today today2 name : String) (s : AgentState) :
    markFollowed now2 today2 name (markFollowed now today name s)
      = markFollowed now today name s ∧
    (name ∈ s.followedMolties → markFollowed now today name s = s) ∧
    (name ∉ s.followedMolties →
      (markFollowed now today name s).followedMolties
          = s.followedMolties ++ [name] ∧
      (markFollowed now today name s).followedMolties.count name
          = s.followedMolties.count name + 1 ∧
      (markFollowed now today name s).stats.totalFollows
          = s.stats.totalFollows + 1 ∧
      (markFollowed now today name s).dailyFollowCount
          = (if s.lastFollowDate = some today then s.dailyFollowCount + 1 else 1) ∧
      (markFollowed now today name s).lastFollowDate = some today ∧
      (markFollowed now today name s).lastFollowTime = some now) := by
  have hof : ∀ (n2 : Int) (t2 : String) (u : AgentState),
      name ∈ u.followedMolties → markFollowed n2 t2 name u = u := by
    intro n2 t2 u hu
    unfold markFollowed
    rw [if_pos hu]
  have hmem_after : name ∈ (markFollowed now today name s).followedMolties := by
    unfold markFollowed
    by_cases h : name ∈ s.followedMolties
    · simp [h]
    · by_cases h2 : s.lastFollowDate = some today <;> simp [h, h2]
  refine ⟨hof now2 today2 _ hmem_after, hof now today s, ?_⟩
  intro h
  by_cases h2 : s.lastFollowDate = some today <;>
    simp [markFollowed, h, h2, List.count_append, h2]

/-- State that already follows peer "bob" and nobody else. -/
def followedBobState : AgentState :=
  { DEFAULT_STATE with followedMolties := ["bob"] }

/-- C10, witness instance: re-marking "bob" is a no-op on the whole
state; first-marking "alice" appends once, bumps the counters and sets
the follow date (the witness state has no `lastFollowDate`, so the
daily counter is set to 1). -/
theorem c10_markFollowed_idempotent_witness :
    ("bob" ∈ followedBobState.followedMolties ∧
      markFollowed 5 "2026-10-11" "bob" followedBobState = followedBobState) ∧
    ("alice" ∉ followedBobState.followedMolties ∧
      (markFollowed 5 "2026-10-11" "alice" followedBobState).followedMolties
        = ["bob", "alice"] ∧
      (markFollowed 5 "2026-10-11" "alice" followedBobState).stats.totalFollows
        = followedBobState.stats.totalFollows + 1) := by
  have hbob := (c10_markFollowed_idempotent 5 5 "2026-10-11" "2026-10-11"
    "bob" followedBobState).2.1 (by decide)
  have halice := (c10_markFollowed_idempotent 5 5 "2026-10-11" "2026-10-11"
    "alice" followedBobState).2.2 (by decide)
  exact ⟨⟨by decide, hbob⟩, ⟨by decide, halice.1, halice.2.2.1⟩⟩

/-! ## Claim C6 -/

/-- C6: for every peer having an affinity record, the affinity score
equals `repliedToMe*3 + iRepliedTo*2 + iUpvotedPosts*2 +
iUpvotedComments*1 + sameSubmoltActivity*1`; and
`getFollowCandidates threshold` returns exactly the affinity records
whose score reaches the threshold and whose name is not in the followed
set — a permutation of the qualifying sublist, so with the exact
multiset of qualifying records — sorted in descending order of score. -/
theorem c6_affinity_candidates (s : AgentState) (threshold : Nat)
    (peer : String) (a : MoltyAffinity)
    (hfind : s.moltyAffinities.find? (fun x => x.name == peer) = some a) :
    calculateAffinityScore s peer
      = a.repliedToMe * 3 + a.iRepliedTo * 2 + a.iUpvotedPosts * 2 +
          a.iUpvotedComments * 1 + a.sameSubmoltActivity * 1 ∧
    (getFollowCandidates threshold s).Perm
      (s.moltyAffinities.filter (fun b =>
        decide (threshold ≤ calculateAffinityScore s b.name) &&
        decide (b.name ∉ s.followedMolties))) ∧
    (∀ b : MoltyAffinity, b ∈ getFollowCandidates threshold s ↔
      (b ∈ s.moltyAffinities ∧ threshold ≤ calculateAffinityScore s b.name ∧
        b.name ∉ s.followedMolties)) ∧
    (getFollowCandidates threshold s).Pairwise
      (fun x y => calculateAffinityScore s y.name ≤ calculateAffinityScore s x.name) := by
  refine ⟨?_, ?_, ?_, ?_⟩
  · unfold calculateAffinityScore
    rw [hfind]
  · exact List.mergeSort_perm _ _
  · intro b
    unfold getFollowCandidates
    rw [(List.mergeSort_perm _ _).mem_iff]
    simp [List.mem_filter, and_assoc]
  · unfold getFollowCandidates
    have htrans : ∀ x y z : MoltyAffinity,
        (fun u v : MoltyAffinity =>
          decide (calculateAffinityScore s v.name ≤ calculateAffinityScore s u.name)) x y = true →
        (fun u v : MoltyAffinity =>
          decide (calculateAffinityScore s v.name ≤ calculateAffinityScore s u.name)) y z = true →
        (fun u v : MoltyAffinity =>
          decide (calculateAffinityScore s v.name ≤ calculateAffinityScore s u.name)) x z = true := by
      intro x y z hxy hyz
      simp only [decide_eq_true_iff] at *
      exact le_trans hyz hxy
    have htotal : ∀ x y : MoltyAffinity,
        ((fun u v : MoltyAffinity =>
          decide (calculateAffinityScore s v.name ≤ calculateAffinityScore s u.name)) x y ||
        (fun u v : MoltyAffinity =>
          decide (calculateAffinityScore s v.name ≤ calculateAffinityScore s u.name)) y x) = true := by
      intro x y
      rcases le_total (calculateAffinityScore s y.name) (calculateAffinityScore s x.name)
        with h | h <;> simp [h]
    have hs := List.sorted_mergeSort htrans htotal
      (s.moltyAffinities.filter (fun b =>
        decide (threshold ≤ calculateAffinityScore s b.name) &&
        decide (b.name ∉ s.followedMolties)))
    refine hs.imp ?_
    intro x y hxy
    simpa using hxy

/-- Affinity record for peer "alice" with every counter at 1 (score 9). -/
def aliceAff : MoltyAffinity :=
  { name := "alice", repliedToMe := 1, iRepliedTo := 1, iUpvotedPosts := 1
    iUpvotedComments := 1, sameSubmoltActivity := 1, lastInteraction := "t0" }

/-- Affinity record for peer "bob" with two replies sent (score 4). -/
def bobAff : MoltyAffinity :=
  { name := "bob", repliedToMe := 0, iRepliedTo := 2, iUpvotedPosts := 0
    iUpvotedComments := 0, sameSubmoltActivity := 0, lastInteraction := "t0" }

/-- Store holding the two example affinity records. -/
def affState : AgentState :=
  { DEFAULT_STATE with moltyAffinities := [aliceAff, bobAff] }

/-- C6, witness instance: the score formula evaluated on the concrete
record of "alice". -/
theorem c6_affinity_candidates_witness :
    affState.moltyAffinities.find? (fun x => x.name == "alice") = some aliceAff ∧
    calculateAffinityScore affState "alice"
      = aliceAff.repliedToMe * 3 + aliceAff.iRepliedTo * 2 +
          aliceAff.iUpvotedPosts * 2 + aliceAff.iUpvotedComments * 1 +
          aliceAff.sameSubmoltActivity * 1 ∧
    (∀ b : MoltyAffinity, b ∈ getFollowCandidates 5 affState ↔
      (b ∈ affState.moltyAffinities ∧ 5 ≤ calculateAffinityScore affState b.name ∧
        b.name ∉ affState.followedMolties)) := by
  have hfind : affState.moltyAffinities.find? (fun x => x.name == "alice")
      = some aliceAff := by decide
  have hmain := c6_affinity_candidates affState 5 "alice" aliceAff hfind
  exact ⟨hfind, hmain.1, hmain.2.2.1⟩

end Moltbook
